import Mathlib

/-!
Verification of the azure-dev compiler core and CLI helpers.

Shallow embedding of:
- `cli/azd/pkg/output/ux/show.go` (`Show`, `MarshalJSON`)
- `cmd` helpers (`azurePortalLink`)
- `cli/azd/pkg/pipeline/pipeline.go` (`ConfigOptions.SecretsAndVars`)
- the Aspire app-host infrastructure generator (`infraGenerator`): the
  storage-account aggregation registry, the environment-variable
  expression resolver (`buildEnvBlock`), and the two template emitters.
  The generator implementation itself is not part of the provided
  sources (only its test file is), so those definitions are modelled
  from the specification, as marked on each.
-/

namespace AzureDev

/-! ## `ux.Show` and its `MarshalJSON` (src/cli/azd/pkg/output/ux/show.go) -/

structure ShowService where
  Name : String
  IngresUrl : String
deriving DecidableEq

structure ShowEnvironment where
  Name : String
  IsCurrent : Bool
  IsRemote : Bool
deriving DecidableEq

structure Show where
  AppName : String
  Services : List ShowService
  Environments : List ShowEnvironment
  AzurePortalLink : String
deriving DecidableEq

/-- Embedding of `func (s *Show) MarshalJSON() ([]byte, error)`:
`return nil, fmt.Errorf("not implemented")`.  The Go pair
`([]byte, error)` is modelled as an optional byte list together with an
optional error message (`none` = Go `nil`). -/
def Show.MarshalJSON (_ : Show) : Option (List UInt8) × Option String :=
  (none, some "not implemented")

/-! ## `azurePortalLink` (cmd package) -/

/-- Modelled from the spec: `output.WithLinkFormat` is not under the
provided sources; it wraps its argument in fixed terminal
link-formatting escape sequences, leaving the content verbatim. -/
def WithLinkFormat (s : String) : String :=
  "\x1b[36m" ++ s ++ "\x1b[0m"

/-- Embedding of `func azurePortalLink(subscriptionId, resourceGroupName string) string`. -/
def azurePortalLink (subscriptionId resourceGroupName : String) : String :=
  if subscriptionId = "" ∨ resourceGroupName = "" then ""
  else
    WithLinkFormat
      ("https://portal.azure.com/#@/resource/subscriptions/" ++ subscriptionId ++
        "/resourceGroups/" ++ resourceGroupName ++ "/overview")

/-! ## Platform Resource Aggregator: the storage registry

The `infraGenerator` implementation is not among the provided sources; only
its test file is.  The registry operations below are therefore modelled from
the specification (§3 "Platform Resource Registry", §4.3), against the
observable behavior fixed by `TestAddContainerAppService`. -/

structure genStorageAccount where
  Blobs : List String
  Queues : List String
  Tables : List String
deriving DecidableEq

abbrev StorageRegistry := List (String × genStorageAccount)

def emptyAccount : genStorageAccount := ⟨[], [], []⟩

def lookupAccount : StorageRegistry → String → Option genStorageAccount
  | [], _ => none
  | e :: rest, p => if e.1 = p then some e.2 else lookupAccount rest p

/-- Go's zero-value map access: a missing parent reads as an account with
three empty child sets (as `TestAddContainerAppService` observes for
`storage3`). -/
def accountFor (r : StorageRegistry) (p : String) : genStorageAccount :=
  (lookupAccount r p).getD emptyAccount

/-- Modelled from the spec: `infraGenerator.addStorageAccount` (the
aggregator's `ensure(parent)`): idempotent; creates the parent's registry
entry with empty Blob/Queue/Table sets if absent; no-op otherwise. -/
def addStorageAccount (p : String) (r : StorageRegistry) : StorageRegistry :=
  match lookupAccount r p with
  | some _ => r
  | none => r ++ [(p, emptyAccount)]

/-- Set-semantics insertion: re-adding an existing child name is a no-op,
not a duplicate. -/
def insertName (c : String) (l : List String) : List String :=
  if c ∈ l then l else l ++ [c]

def updateAccount (p : String) (f : genStorageAccount → genStorageAccount)
    (r : StorageRegistry) : StorageRegistry :=
  (addStorageAccount p r).map (fun e => if e.1 = p then (e.1, f e.2) else e)

/-- Modelled from the spec: `addStorageBlob` implicitly ensures the parent,
then inserts the child name into the Blobs set (membership semantics). -/
def addStorageBlob (p c : String) (r : StorageRegistry) : StorageRegistry :=
  updateAccount p (fun a => { a with Blobs := insertName c a.Blobs }) r

/-- Modelled from the spec: `addStorageQueue`, as `addStorageBlob` for Queues. -/
def addStorageQueue (p c : String) (r : StorageRegistry) : StorageRegistry :=
  updateAccount p (fun a => { a with Queues := insertName c a.Queues }) r

/-- Modelled from the spec: `addStorageTable`, as `addStorageBlob` for Tables. -/
def addStorageTable (p c : String) (r : StorageRegistry) : StorageRegistry :=
  updateAccount p (fun a => { a with Tables := insertName c a.Tables }) r

/-- One aggregator call, for reasoning about arbitrary call sequences. -/
inductive StorageOp where
  | ensure (p : String)
  | addBlob (p c : String)
  | addQueue (p c : String)
  | addTable (p c : String)
deriving DecidableEq

def StorageOp.parent : StorageOp → String
  | .ensure p => p
  | .addBlob p _ => p
  | .addQueue p _ => p
  | .addTable p _ => p

/-- The effect of one call on its parent's account record. -/
def stepAccount : StorageOp → genStorageAccount → genStorageAccount
  | .ensure _, a => a
  | .addBlob _ c, a => { a with Blobs := insertName c a.Blobs }
  | .addQueue _ c, a => { a with Queues := insertName c a.Queues }
  | .addTable _ c, a => { a with Tables := insertName c a.Tables }

def applyOp (r : StorageRegistry) : StorageOp → StorageRegistry
  | .ensure p => addStorageAccount p r
  | .addBlob p c => addStorageBlob p c r
  | .addQueue p c => addStorageQueue p c r
  | .addTable p c => addStorageTable p c r

def runOps (ops : List StorageOp) : StorageRegistry := ops.foldl applyOp []

def regKeys (r : StorageRegistry) : List String := r.map Prod.fst

def StorageOp.blobChild (p : String) : StorageOp → Option String
  | .addBlob q c => if q = p then some c else none
  | _ => none

def StorageOp.queueChild (p : String) : StorageOp → Option String
  | .addQueue q c => if q = p then some c else none
  | _ => none

def StorageOp.tableChild (p : String) : StorageOp → Option String
  | .addTable q c => if q = p then some c else none
  | _ => none

def blobAdds (p : String) (ops : List StorageOp) : List String :=
  ops.filterMap (StorageOp.blobChild p)

def queueAdds (p : String) (ops : List StorageOp) : List String :=
  ops.filterMap (StorageOp.queueChild p)

def tableAdds (p : String) (ops : List StorageOp) : List String :=
  ops.filterMap (StorageOp.tableChild p)

/-- The literal 10-call scenario of `TestAddContainerAppService`. -/
def testOps : List StorageOp :=
  [.addBlob "storage" "blob", .ensure "storage", .addQueue "storage" "quue",
   .ensure "storage", .addTable "storage" "table", .ensure "storage2",
   .ensure "storage3", .addTable "storage4" "table", .addTable "storage2" "table",
   .addQueue "storage" "quue2"]

/-! ## Expression Resolver (`infraGenerator.buildEnvBlock`)

The resolver implementation is not among the provided sources; only its
test `TestBuildEnvResolveServiceToConnectionString` is.  The scanner below
is modelled from the specification (§4.4 algorithm, §9 "linear scanner over
matched-brace spans"), against the observable behavior fixed by the test. -/

/-- The Type Catalog: resource name to platform type tag. -/
abbrev TypeCatalog := List (String × String)

def lookupType : TypeCatalog → String → Option String
  | [], _ => none
  | e :: rest, n => if e.1 = n then some e.2 else lookupType rest n

inductive ResolveError where
  | UnresolvedReference (expr : String)
  | UnsupportedBinding (platformType property : String)
deriving DecidableEq

/-- The opening delimiter of a reference expression. -/
def obrace : Char := '\x7b'

/-- The closing delimiter of a reference expression. -/
def cbrace : Char := '\x7d'

/-- Modelled from the spec: the static rewrite-rule table keyed by
platform type and property (§4.4 step 3, §6).  The evidenced entry: a
relational-database platform type's `connectionString` property rewrites
to the call-style deployment expression parameterized by the literal
resource name.  Unsupported combinations have no rule. -/
def rewriteRule (platformType property name : String) : Option String :=
  if platformType = "postgres.database.v0" ∧ property = "connectionString" then
    some ("\x7b\x7b connectionString \"" ++ name ++ "\" \x7d\x7d")
  else none

instance exceptDecEq {ε α : Type} [DecidableEq ε] [DecidableEq α] :
    DecidableEq (Except ε α) := fun x y =>
  match x, y with
  | .error a, .error b =>
      if h : a = b then isTrue (h ▸ rfl) else isFalse (fun hc => h (Except.error.inj hc))
  | .ok a, .ok b =>
      if h : a = b then isTrue (h ▸ rfl) else isFalse (fun hc => h (Except.ok.inj hc))
  | .error _, .ok _ => isFalse (fun hc => Except.noConfusion hc)
  | .ok _, .error _ => isFalse (fun hc => Except.noConfusion hc)

/-- Split a bracketed span at its first dot into resource name and property. -/
def splitDot : List Char → Option (List Char × List Char)
  | [] => none
  | c :: rest =>
      if c = '.' then some ([], rest)
      else match splitDot rest with
        | none => none
        | some (a, b) => some (c :: a, b)

/-- Resolve one complete bracketed span: `none` when the span is not a
reference (no dot); otherwise the rewrite result or the resolution error
(§4.4 steps 2-3). -/
def resolveRef (cat : TypeCatalog) (acc : List Char) :
    Option (Except ResolveError (List Char)) :=
  match splitDot acc with
  | none => none
  | some (name, prop) =>
      match lookupType cat (String.mk name) with
      | none => some (.error (.UnresolvedReference
          (String.mk (obrace :: (acc ++ [cbrace])))))
      | some ty =>
          match rewriteRule ty (String.mk prop) (String.mk name) with
          | none => some (.error (.UnsupportedBinding ty (String.mk prop)))
          | some rep => some (.ok rep.data)

/-- Modelled from the spec: the resolver's linear left-to-right scan of one
environment value (§4.4 steps 1, 4, 5).  State `none`: scanning literal
text; state `some span`: inside a bracketed span.  Matched spans are
replaced by their rewrite; scanning continues after the replacement; all
other characters pass through untouched; spans that are not references
pass through literally. -/
def scanValue (cat : TypeCatalog) :
    Option (List Char) → List Char → Except ResolveError (List Char)
  | none, [] => .ok []
  | some acc, [] => .ok (obrace :: acc)
  | none, c :: rest =>
      if c = obrace then scanValue cat (some []) rest
      else (scanValue cat none rest).map (c :: ·)
  | some acc, c :: rest =>
      if c = cbrace then
        match resolveRef cat acc with
        | none => (scanValue cat none rest).map
            (fun t => obrace :: (acc ++ cbrace :: t))
        | some (.error e) => .error e
        | some (.ok rep) => (scanValue cat none rest).map (fun t => rep ++ t)
      else if c = obrace then
        (scanValue cat (some []) rest).map (fun t => obrace :: (acc ++ t))
      else scanValue cat (some (acc ++ [c])) rest

/-- Resolve one environment value string. -/
def resolveValue (cat : TypeCatalog) (s : String) : Except ResolveError String :=
  (scanValue cat none s.data).map String.mk

/-- Modelled from the spec: `infraGenerator.buildEnvBlock` resolves every
environment value and writes the result under the same variable name; the
first resolution error aborts the block (§4.4 step 6, §7). -/
def buildEnvBlock (cat : TypeCatalog) :
    List (String × String) → Except ResolveError (List (String × String))
  | [] => .ok []
  | (k, v) :: rest =>
      match resolveValue cat v with
      | .error e => .error e
      | .ok rv =>
          match buildEnvBlock cat rest with
          | .error e => .error e
          | .ok out => .ok ((k, rv) :: out)

/-! ## Template Emitters

`BicepTemplate` and `ContainerAppManifestTemplateForProject` are not among
the provided sources; only their tests are.  Modelled from the
specification (§4.5), with storage as the representative platform-resource
kind of the Infrastructure Emitter. -/

structure genBicepTemplateContext where
  StorageAccounts : StorageRegistry
deriving DecidableEq

def joinNames (l : List String) : String :=
  l.foldl (fun acc n => acc ++ " " ++ n) ""

def renderStorageAccount (e : String × genStorageAccount) : String :=
  "storageAccount " ++ e.1 ++ " blobs:" ++ joinNames e.2.Blobs ++
    " queues:" ++ joinNames e.2.Queues ++ " tables:" ++ joinNames e.2.Tables ++ "\n"

def storageModule (r : StorageRegistry) : String :=
  r.foldl (fun acc e => acc ++ renderStorageAccount e) ""

/-- Modelled from the spec: the Infrastructure Emitter produces one module
grouping per platform-resource kind with at least one registered parent and
no module for a kind with none; output paths derive only from the kind
name (§4.5). -/
def BicepTemplate (ctx : genBicepTemplateContext) : List (String × String) :=
  if ctx.StorageAccounts.isEmpty then []
  else [("storage.module.bicep", storageModule ctx.StorageAccounts)]

/-- A binding declared on a resource, with its externally-exposed flag. -/
structure Binding where
  scheme : String
  protocol : String
  transport : String
  External : Bool
deriving DecidableEq

/-- The slice of a manifest resource that the Service Manifest Emitter
consumes: its bindings and its raw environment mapping. -/
structure ManifestResource where
  bindings : List Binding
  env : List (String × String)
deriving DecidableEq

structure genContainerAppManifestTemplateContext where
  Env : List (String × String)
  Bindings : List Binding
deriving DecidableEq

/-- Modelled from the spec: the Service Manifest Emitter's template context
holds the resolved environment and the bindings with the exposure flag as
declared in the graph (§4.5). -/
def buildManifestContext (cat : TypeCatalog) (r : ManifestResource) :
    Except ResolveError genContainerAppManifestTemplateContext :=
  match buildEnvBlock cat r.env with
  | .error e => .error e
  | .ok env => .ok ⟨env, r.bindings⟩

def renderBinding (b : Binding) : String :=
  "  - scheme: " ++ b.scheme ++ " protocol: " ++ b.protocol ++
    " transport: " ++ b.transport ++ " external: " ++
    (if b.External then "true" else "false") ++ "\n"

def renderBindings : List Binding → String
  | [] => ""
  | b :: rest => renderBinding b ++ renderBindings rest

def renderEnvEntry (e : String × String) : String :=
  "  " ++ e.1 ++ ": " ++ e.2 ++ "\n"

def renderEnvList : List (String × String) → String
  | [] => ""
  | e :: rest => renderEnvEntry e ++ renderEnvList rest

def renderManifest (ctx : genContainerAppManifestTemplateContext) : String :=
  "env:\n" ++ renderEnvList ctx.Env ++ "bindings:\n" ++ renderBindings ctx.Bindings

/-- Modelled from the spec: one deployment manifest template per deployable
resource, rendered deterministically from the template context (§4.5). -/
def ContainerAppManifestTemplateForProject (cat : TypeCatalog)
    (r : ManifestResource) : Except ResolveError String :=
  match buildManifestContext cat r with
  | .error e => .error e
  | .ok ctx => .ok (renderManifest ctx)

/-! ## `ConfigOptions.SecretsAndVars` (src/cli/azd/pkg/pipeline/pipeline.go)

Go maps are embedded as partial functions `String → Option String`; the
`env` map that the Go code ranges over is a key-value list with
duplicate-free keys.  `maps.Clone` makes the returned maps fresh copies of
the initial ones, which the pure embedding renders by starting the fold
from the (immutable) initial maps. -/

structure ConfigOptions where
  Variables : List String
  Secrets : List String
  AdditionalVariablesAsSecrets : Bool

abbrev EnvMap := String → Option String

def updateVar (m : EnvMap) (k v : String) : EnvMap :=
  fun q => if q = k then some v else m q

/-- The fixed known-variables list of `SecretsAndVars`. -/
def knownVars : List String :=
  ["AZURE_LOCATION", "AZURE_ENV_NAME", "AZURE_SERVICE_CONNECTION",
   "AZURE_SUBSCRIPTION_ID", "AZURE_RESOURCE_GROUP", "ARM_TENANT_ID",
   "RS_RESOURCE_GROUP", "RS_STORAGE_ACCOUNT", "RS_CONTAINER_NAME"]

/-- First-match association lookup on the `env` list. -/
def lookupVal : List (String × String) → String → Option String
  | [], _ => none
  | e :: rest, k => if e.1 = k then some e.2 else lookupVal rest k

/-- One iteration of the `for key, value := range env` loop body of
`SecretsAndVars`. -/
def svStep (c : ConfigOptions) (acc : EnvMap × EnvMap) (kv : String × String) :
    EnvMap × EnvMap :=
  let vars :=
    if kv.1 ∈ c.Variables then updateVar acc.1 kv.1 kv.2 else acc.1
  let secrets :=
    if kv.1 ∈ c.Secrets then updateVar acc.2 kv.1 kv.2 else acc.2
  let secrets :=
    if c.AdditionalVariablesAsSecrets ∧ kv.1 ∉ c.Variables ∧ kv.1 ∉ knownVars
    then updateVar secrets kv.1 kv.2 else secrets
  (vars, secrets)

/-- Embedding of `func (c *ConfigOptions) SecretsAndVars(initialVariables,
initialSecrets, env map[string]string) (variables, secrets map[string]string)`:
clone the initial maps, then for each env entry add it to variables when
listed in `c.Variables`, to secrets when listed in `c.Secrets`, and to
secrets when `AdditionalVariablesAsSecrets` is set and the key is neither
in `c.Variables` nor in `knownVars`. -/
def SecretsAndVars (c : ConfigOptions) (initialVariables initialSecrets : EnvMap)
    (env : List (String × String)) : EnvMap × EnvMap :=
  env.foldl (svStep c) (initialVariables, initialSecrets)

end AzureDev

namespace AzureDev

/-- **C10.** `Show.MarshalJSON` always fails: for every `Show` value it
returns a `nil` byte slice together with a non-`nil` "not implemented"
error, so a `Show` can never be serialized to JSON through this method. -/
theorem Show_MarshalJSON_always_fails (s : Show) :
    (s.MarshalJSON).1 = none ∧ (s.MarshalJSON).2 = some "not implemented" ∧
      ∀ bytes : List UInt8, (s.MarshalJSON).1 ≠ some bytes := by
  refine ⟨rfl, rfl, ?_⟩
  intro bytes h
  exact Option.noConfusion h

/-- **C8.** `azurePortalLink` returns the empty string when either argument is
empty, and otherwise returns a link-formatted URL of the fixed shape
`https://portal.azure.com/#@/resource/subscriptions/<sub>/resourceGroups/<rg>/overview`
containing both arguments verbatim (witnessed by the explicit decomposition
of the result around each argument). -/
theorem azurePortalLink_spec (subscriptionId resourceGroupName : String) :
    ((subscriptionId = "" ∨ resourceGroupName = "") →
      azurePortalLink subscriptionId resourceGroupName = "") ∧
    (subscriptionId ≠ "" → resourceGroupName ≠ "" →
      azurePortalLink subscriptionId resourceGroupName =
        WithLinkFormat
          ("https://portal.azure.com/#@/resource/subscriptions/" ++ subscriptionId ++
            "/resourceGroups/" ++ resourceGroupName ++ "/overview") ∧
      subscriptionId.data <:+:
        (azurePortalLink subscriptionId resourceGroupName).data ∧
      resourceGroupName.data <:+:
        (azurePortalLink subscriptionId resourceGroupName).data) := by
  constructor
  · intro h
    simp only [azurePortalLink, if_pos h]
  · intro h1 h2
    have hcond : ¬(subscriptionId = "" ∨ resourceGroupName = "") := by
      rintro (h | h) <;> [exact h1 h; exact h2 h]
    have heq : azurePortalLink subscriptionId resourceGroupName =
        WithLinkFormat
          ("https://portal.azure.com/#@/resource/subscriptions/" ++ subscriptionId ++
            "/resourceGroups/" ++ resourceGroupName ++ "/overview") := by
      simp only [azurePortalLink, if_neg hcond]
    refine ⟨heq, ?_, ?_⟩
    · refine ⟨("\x1b[36m" ++ "https://portal.azure.com/#@/resource/subscriptions/").data,
        ("/resourceGroups/" ++ resourceGroupName ++ "/overview" ++ "\x1b[0m").data, ?_⟩
      rw [heq]
      simp [WithLinkFormat, String.data_append]
    · refine ⟨("\x1b[36m" ++ "https://portal.azure.com/#@/resource/subscriptions/" ++
          subscriptionId ++ "/resourceGroups/").data,
        ("/overview" ++ "\x1b[0m").data, ?_⟩
      rw [heq]
      simp [WithLinkFormat, String.data_append]

/-! ### Registry helper lemmas -/

theorem lookupAccount_append_one (r : StorageRegistry) (p : String)
    (a : genStorageAccount) (q : String) :
    lookupAccount (r ++ [(p, a)]) q =
      match lookupAccount r q with
      | some b => some b
      | none => if p = q then some a else none := by
  induction r with
  | nil => simp [lookupAccount]
  | cons e rest ih =>
    by_cases h : e.1 = q <;> simp [lookupAccount, h, ih]

theorem lookup_addStorageAccount (r : StorageRegistry) (p q : String) :
    lookupAccount (addStorageAccount p r) q =
      if q = p then some (accountFor r p) else lookupAccount r q := by
  unfold addStorageAccount accountFor
  cases hp : lookupAccount r p with
  | some a =>
    by_cases hq : q = p
    · subst hq; simp [hp]
    · simp [hq]
  | none =>
    rw [lookupAccount_append_one]
    by_cases hq : q = p
    · subst hq; simp [hp]
    · cases hl : lookupAccount r q with
      | some b => simp [hl, hq]
      | none =>
        have hpq : ¬p = q := fun h => hq h.symm
        simp [hl, hq, hpq]

theorem lookupAccount_map_update (r : StorageRegistry) (p : String)
    (f : genStorageAccount → genStorageAccount) (q : String) :
    lookupAccount (r.map fun e => if e.1 = p then (e.1, f e.2) else e) q =
      if q = p then (lookupAccount r p).map f else lookupAccount r q := by
  induction r with
  | nil => simp [lookupAccount]
  | cons e rest ih =>
    by_cases hep : e.1 = p
    · by_cases hq : q = p
      · subst hq
        simp [lookupAccount, hep, ih]
      · have hpq : ¬p = q := fun h => hq h.symm
        simp [lookupAccount, hep, hq, hpq, ih]
    · by_cases hq : q = p
      · subst hq
        simp [lookupAccount, hep, ih]
      · by_cases heq : e.1 = q
        · simp [lookupAccount, hep, heq, hq, ih]
        · simp [lookupAccount, hep, heq, hq, ih]

theorem lookup_updateAccount (r : StorageRegistry) (p : String)
    (f : genStorageAccount → genStorageAccount) (q : String) :
    lookupAccount (updateAccount p f r) q =
      if q = p then some (f (accountFor r p)) else lookupAccount r q := by
  unfold updateAccount
  rw [lookupAccount_map_update, lookup_addStorageAccount]
  by_cases hq : q = p <;> simp [hq, lookup_addStorageAccount]

theorem lookup_applyOp (r : StorageRegistry) (o : StorageOp) (q : String) :
    lookupAccount (applyOp r o) q =
      if q = o.parent then some (stepAccount o (accountFor r o.parent))
      else lookupAccount r q := by
  cases o with
  | ensure p =>
    rw [applyOp, lookup_addStorageAccount]
    by_cases hq : q = p <;> simp [hq, StorageOp.parent, stepAccount]
  | addBlob p c =>
    rw [applyOp, addStorageBlob, lookup_updateAccount]
    by_cases hq : q = p <;> simp [hq, StorageOp.parent, stepAccount]
  | addQueue p c =>
    rw [applyOp, addStorageQueue, lookup_updateAccount]
    by_cases hq : q = p <;> simp [hq, StorageOp.parent, stepAccount]
  | addTable p c =>
    rw [applyOp, addStorageTable, lookup_updateAccount]
    by_cases hq : q = p <;> simp [hq, StorageOp.parent, stepAccount]

theorem accountFor_applyOp (r : StorageRegistry) (o : StorageOp) (q : String) :
    accountFor (applyOp r o) q =
      if q = o.parent then stepAccount o (accountFor r o.parent)
      else accountFor r q := by
  unfold accountFor
  rw [lookup_applyOp]
  by_cases hq : q = o.parent <;> simp [hq, accountFor]

theorem mem_insertName (c c' : String) (l : List String) :
    c ∈ insertName c' l ↔ c ∈ l ∨ c = c' := by
  unfold insertName
  by_cases h : c' ∈ l
  · simp only [if_pos h]
    constructor
    · exact Or.inl
    · rintro (hc | rfl)
      · exact hc
      · exact h
  · simp [if_neg h]

theorem nodup_insertName (c : String) (l : List String) (h : l.Nodup) :
    (insertName c l).Nodup := by
  unfold insertName
  by_cases hc : c ∈ l
  · simpa [if_pos hc] using h
  · simp only [if_neg hc, List.nodup_append]
    exact ⟨h, List.nodup_singleton c, by simpa [List.disjoint_singleton] using hc⟩

theorem mem_Blobs_applyOp (r : StorageRegistry) (o : StorageOp) (p c : String) :
    c ∈ (accountFor (applyOp r o) p).Blobs ↔
      c ∈ (accountFor r p).Blobs ∨ o = StorageOp.addBlob p c := by
  rw [accountFor_applyOp]
  cases o with
  | ensure q =>
    by_cases hq : p = q <;> simp [hq, StorageOp.parent, stepAccount]
  | addBlob q c' =>
    by_cases hq : p = q
    · subst hq
      simp [StorageOp.parent, stepAccount, mem_insertName, eq_comm]
    · have hpq : ¬q = p := fun h => hq h.symm
      simp [StorageOp.parent, stepAccount, hq, hpq]
  | addQueue q c' =>
    by_cases hq : p = q <;> simp [hq, StorageOp.parent, stepAccount]
  | addTable q c' =>
    by_cases hq : p = q <;> simp [hq, StorageOp.parent, stepAccount]

theorem mem_Queues_applyOp (r : StorageRegistry) (o : StorageOp) (p c : String) :
    c ∈ (accountFor (applyOp r o) p).Queues ↔
      c ∈ (accountFor r p).Queues ∨ o = StorageOp.addQueue p c := by
  rw [accountFor_applyOp]
  cases o with
  | ensure q =>
    by_cases hq : p = q <;> simp [hq, StorageOp.parent, stepAccount]
  | addBlob q c' =>
    by_cases hq : p = q <;> simp [hq, StorageOp.parent, stepAccount]
  | addQueue q c' =>
    by_cases hq : p = q
    · subst hq
      simp [StorageOp.parent, stepAccount, mem_insertName, eq_comm]
    · have hpq : ¬q = p := fun h => hq h.symm
      simp [StorageOp.parent, stepAccount, hq, hpq]
  | addTable q c' =>
    by_cases hq : p = q <;> simp [hq, StorageOp.parent, stepAccount]

theorem mem_Tables_applyOp (r : StorageRegistry) (o : StorageOp) (p c : String) :
    c ∈ (accountFor (applyOp r o) p).Tables ↔
      c ∈ (accountFor r p).Tables ∨ o = StorageOp.addTable p c := by
  rw [accountFor_applyOp]
  cases o with
  | ensure q =>
    by_cases hq : p = q <;> simp [hq, StorageOp.parent, stepAccount]
  | addBlob q c' =>
    by_cases hq : p = q <;> simp [hq, StorageOp.parent, stepAccount]
  | addQueue q c' =>
    by_cases hq : p = q <;> simp [hq, StorageOp.parent, stepAccount]
  | addTable q c' =>
    by_cases hq : p = q
    · subst hq
      simp [StorageOp.parent, stepAccount, mem_insertName, eq_comm]
    · have hpq : ¬q = p := fun h => hq h.symm
      simp [StorageOp.parent, stepAccount, hq, hpq]

theorem mem_Blobs_foldl (ops : List StorageOp) (r : StorageRegistry) (p c : String) :
    c ∈ (accountFor (ops.foldl applyOp r) p).Blobs ↔
      c ∈ (accountFor r p).Blobs ∨ StorageOp.addBlob p c ∈ ops := by
  induction ops generalizing r with
  | nil => simp
  | cons o rest ih =>
    rw [List.foldl_cons, ih, mem_Blobs_applyOp]
    simp only [List.mem_cons]
    constructor
    · rintro ((h | h) | h)
      · exact Or.inl h
      · exact Or.inr (Or.inl h.symm)
      · exact Or.inr (Or.inr h)
    · rintro (h | h | h)
      · exact Or.inl (Or.inl h)
      · exact Or.inl (Or.inr h.symm)
      · exact Or.inr h

theorem mem_Queues_foldl (ops : List StorageOp) (r : StorageRegistry) (p c : String) :
    c ∈ (accountFor (ops.foldl applyOp r) p).Queues ↔
      c ∈ (accountFor r p).Queues ∨ StorageOp.addQueue p c ∈ ops := by
  induction ops generalizing r with
  | nil => simp
  | cons o rest ih =>
    rw [List.foldl_cons, ih, mem_Queues_applyOp]
    simp only [List.mem_cons]
    constructor
    · rintro ((h | h) | h)
      · exact Or.inl h
      · exact Or.inr (Or.inl h.symm)
      · exact Or.inr (Or.inr h)
    · rintro (h | h | h)
      · exact Or.inl (Or.inl h)
      · exact Or.inl (Or.inr h.symm)
      · exact Or.inr h

theorem mem_Tables_foldl (ops : List StorageOp) (r : StorageRegistry) (p c : String) :
    c ∈ (accountFor (ops.foldl applyOp r) p).Tables ↔
      c ∈ (accountFor r p).Tables ∨ StorageOp.addTable p c ∈ ops := by
  induction ops generalizing r with
  | nil => simp
  | cons o rest ih =>
    rw [List.foldl_cons, ih, mem_Tables_applyOp]
    simp only [List.mem_cons]
    constructor
    · rintro ((h | h) | h)
      · exact Or.inl h
      · exact Or.inr (Or.inl h.symm)
      · exact Or.inr (Or.inr h)
    · rintro (h | h | h)
      · exact Or.inl (Or.inl h)
      · exact Or.inl (Or.inr h.symm)
      · exact Or.inr h

theorem accounts_nodup_foldl (ops : List StorageOp) (r : StorageRegistry)
    (h : ∀ p, (accountFor r p).Blobs.Nodup ∧ (accountFor r p).Queues.Nodup ∧
      (accountFor r p).Tables.Nodup) (p : String) :
    (accountFor (ops.foldl applyOp r) p).Blobs.Nodup ∧
      (accountFor (ops.foldl applyOp r) p).Queues.Nodup ∧
      (accountFor (ops.foldl applyOp r) p).Tables.Nodup := by
  induction ops generalizing r with
  | nil => exact h p
  | cons o rest ih =>
    rw [List.foldl_cons]
    refine ih (applyOp r o) ?_
    intro q
    rw [accountFor_applyOp]
    by_cases hq : q = o.parent
    · rw [if_pos hq]
      obtain ⟨hb, hqu, ht⟩ := h o.parent
      cases o with
      | ensure _ => exact ⟨hb, hqu, ht⟩
      | addBlob _ c => exact ⟨nodup_insertName c _ hb, hqu, ht⟩
      | addQueue _ c => exact ⟨hb, nodup_insertName c _ hqu, ht⟩
      | addTable _ c => exact ⟨hb, hqu, nodup_insertName c _ ht⟩
    · rw [if_neg hq]
      exact h q

theorem lookupAccount_eq_none_iff (r : StorageRegistry) (q : String) :
    lookupAccount r q = none ↔ q ∉ regKeys r := by
  induction r with
  | nil => simp [lookupAccount, regKeys]
  | cons e rest ih =>
    simp only [lookupAccount, regKeys, List.map_cons, List.mem_cons]
    by_cases h : e.1 = q
    · simp [h]
    · have hq : ¬q = e.1 := fun hh => h hh.symm
      rw [if_neg h, ih]
      simp [regKeys, hq]

theorem regKeys_addStorageAccount (r : StorageRegistry) (p : String) :
    regKeys (addStorageAccount p r) =
      if lookupAccount r p = none then regKeys r ++ [p] else regKeys r := by
  unfold addStorageAccount
  cases h : lookupAccount r p <;> simp [regKeys, h]

theorem regKeys_updateAccount (r : StorageRegistry) (p : String)
    (f : genStorageAccount → genStorageAccount) :
    regKeys (updateAccount p f r) = regKeys (addStorageAccount p r) := by
  unfold updateAccount regKeys
  rw [List.map_map]
  congr 1
  funext e
  by_cases h : e.1 = p <;> simp [h]

theorem regKeys_applyOp (r : StorageRegistry) (o : StorageOp) :
    regKeys (applyOp r o) =
      if lookupAccount r o.parent = none then regKeys r ++ [o.parent]
      else regKeys r := by
  cases o <;>
    simp [applyOp, addStorageBlob, addStorageQueue, addStorageTable,
      regKeys_updateAccount, regKeys_addStorageAccount, StorageOp.parent]

theorem mem_regKeys_foldl (ops : List StorageOp) (r : StorageRegistry) (q : String) :
    q ∈ regKeys (ops.foldl applyOp r) ↔
      q ∈ regKeys r ∨ q ∈ ops.map StorageOp.parent := by
  induction ops generalizing r with
  | nil => simp
  | cons o rest ih =>
    rw [List.foldl_cons, ih, regKeys_applyOp]
    by_cases hnone : lookupAccount r o.parent = none
    · rw [if_pos hnone]
      simp only [List.mem_append, List.mem_singleton, List.map_cons, List.mem_cons]
      tauto
    · rw [if_neg hnone]
      have hmem : o.parent ∈ regKeys r := by
        by_contra hmem
        exact hnone ((lookupAccount_eq_none_iff r o.parent).2 hmem)
      simp only [List.map_cons, List.mem_cons]
      constructor
      · rintro (h | h)
        · exact Or.inl h
        · exact Or.inr (Or.inr h)
      · rintro (h | rfl | h)
        · exact Or.inl h
        · exact Or.inl hmem
        · exact Or.inr h

theorem regKeys_nodup_foldl (ops : List StorageOp) (r : StorageRegistry)
    (h : (regKeys r).Nodup) : (regKeys (ops.foldl applyOp r)).Nodup := by
  induction ops generalizing r with
  | nil => exact h
  | cons o rest ih =>
    rw [List.foldl_cons]
    refine ih (applyOp r o) ?_
    rw [regKeys_applyOp]
    by_cases hnone : lookupAccount r o.parent = none
    · rw [if_pos hnone]
      have hmem : o.parent ∉ regKeys r := (lookupAccount_eq_none_iff r o.parent).1 hnone
      simp only [List.nodup_append]
      exact ⟨h, List.nodup_singleton _, by simpa [List.disjoint_singleton] using hmem⟩
    · rw [if_neg hnone]
      exact h

theorem mem_blobAdds (p c : String) (ops : List StorageOp) :
    c ∈ blobAdds p ops ↔ StorageOp.addBlob p c ∈ ops := by
  induction ops with
  | nil => simp [blobAdds]
  | cons o rest ih =>
    rw [blobAdds, List.filterMap_cons]
    rw [blobAdds] at ih
    cases o with
    | ensure q => simp [StorageOp.blobChild, List.mem_cons, ih]
    | addBlob q c' =>
      by_cases hq : q = p
      · subst hq
        simp [StorageOp.blobChild, List.mem_cons, ih, StorageOp.addBlob.injEq]
      · have hpq : ¬p = q := fun h => hq h.symm
        simp [StorageOp.blobChild, hq, List.mem_cons, ih, StorageOp.addBlob.injEq, hpq]
    | addQueue q c' => simp [StorageOp.blobChild, List.mem_cons, ih]
    | addTable q c' => simp [StorageOp.blobChild, List.mem_cons, ih]

theorem mem_queueAdds (p c : String) (ops : List StorageOp) :
    c ∈ queueAdds p ops ↔ StorageOp.addQueue p c ∈ ops := by
  induction ops with
  | nil => simp [queueAdds]
  | cons o rest ih =>
    rw [queueAdds, List.filterMap_cons]
    rw [queueAdds] at ih
    cases o with
    | ensure q => simp [StorageOp.queueChild, List.mem_cons, ih]
    | addBlob q c' => simp [StorageOp.queueChild, List.mem_cons, ih]
    | addQueue q c' =>
      by_cases hq : q = p
      · subst hq
        simp [StorageOp.queueChild, List.mem_cons, ih, StorageOp.addQueue.injEq]
      · have hpq : ¬p = q := fun h => hq h.symm
        simp [StorageOp.queueChild, hq, List.mem_cons, ih, StorageOp.addQueue.injEq, hpq]
    | addTable q c' => simp [StorageOp.queueChild, List.mem_cons, ih]

theorem mem_tableAdds (p c : String) (ops : List StorageOp) :
    c ∈ tableAdds p ops ↔ StorageOp.addTable p c ∈ ops := by
  induction ops with
  | nil => simp [tableAdds]
  | cons o rest ih =>
    rw [tableAdds, List.filterMap_cons]
    rw [tableAdds] at ih
    cases o with
    | ensure q => simp [StorageOp.tableChild, List.mem_cons, ih]
    | addBlob q c' => simp [StorageOp.tableChild, List.mem_cons, ih]
    | addQueue q c' => simp [StorageOp.tableChild, List.mem_cons, ih]
    | addTable q c' =>
      by_cases hq : q = p
      · subst hq
        simp [StorageOp.tableChild, List.mem_cons, ih, StorageOp.addTable.injEq]
      · have hpq : ¬p = q := fun h => hq h.symm
        simp [StorageOp.tableChild, hq, List.mem_cons, ih, StorageOp.addTable.injEq, hpq]

theorem length_eq_dedup_length_of_mem_iff (l₁ l₂ : List String)
    (h₁ : l₁.Nodup) (h : ∀ c, c ∈ l₁ ↔ c ∈ l₂) :
    l₁.length = l₂.dedup.length := by
  refine List.Perm.length_eq ?_
  refine (List.perm_ext_iff_of_nodup h₁ (List.nodup_dedup l₂)).2 ?_
  intro c
  rw [h c, List.mem_dedup]

theorem regKeys_runOps_nodup (ops : List StorageOp) :
    (regKeys (runOps ops)).Nodup :=
  regKeys_nodup_foldl ops [] List.nodup_nil

theorem mem_regKeys_runOps (ops : List StorageOp) (q : String) :
    q ∈ regKeys (runOps ops) ↔ q ∈ ops.map StorageOp.parent := by
  unfold runOps
  rw [mem_regKeys_foldl]
  simp [regKeys]

theorem accounts_runOps_nodup (ops : List StorageOp) (p : String) :
    (accountFor (runOps ops) p).Blobs.Nodup ∧
      (accountFor (runOps ops) p).Queues.Nodup ∧
      (accountFor (runOps ops) p).Tables.Nodup :=
  accounts_nodup_foldl ops []
    (fun _ => ⟨List.nodup_nil, List.nodup_nil, List.nodup_nil⟩) p

theorem mem_Blobs_runOps (ops : List StorageOp) (p c : String) :
    c ∈ (accountFor (runOps ops) p).Blobs ↔ StorageOp.addBlob p c ∈ ops := by
  unfold runOps
  rw [mem_Blobs_foldl]
  simp [accountFor, lookupAccount, emptyAccount]

theorem mem_Queues_runOps (ops : List StorageOp) (p c : String) :
    c ∈ (accountFor (runOps ops) p).Queues ↔ StorageOp.addQueue p c ∈ ops := by
  unfold runOps
  rw [mem_Queues_foldl]
  simp [accountFor, lookupAccount, emptyAccount]

theorem mem_Tables_runOps (ops : List StorageOp) (p c : String) :
    c ∈ (accountFor (runOps ops) p).Tables ↔ StorageOp.addTable p c ∈ ops := by
  unfold runOps
  rw [mem_Tables_foldl]
  simp [accountFor, lookupAccount, emptyAccount]

theorem Blobs_length_runOps (ops : List StorageOp) (p : String) :
    (accountFor (runOps ops) p).Blobs.length = (blobAdds p ops).dedup.length :=
  length_eq_dedup_length_of_mem_iff _ _ (accounts_runOps_nodup ops p).1
    (fun c => (mem_Blobs_runOps ops p c).trans (mem_blobAdds p c ops).symm)

theorem Queues_length_runOps (ops : List StorageOp) (p : String) :
    (accountFor (runOps ops) p).Queues.length = (queueAdds p ops).dedup.length :=
  length_eq_dedup_length_of_mem_iff _ _ (accounts_runOps_nodup ops p).2.1
    (fun c => (mem_Queues_runOps ops p c).trans (mem_queueAdds p c ops).symm)

theorem Tables_length_runOps (ops : List StorageOp) (p : String) :
    (accountFor (runOps ops) p).Tables.length = (tableAdds p ops).dedup.length :=
  length_eq_dedup_length_of_mem_iff _ _ (accounts_runOps_nodup ops p).2.2
    (fun c => (mem_Tables_runOps ops p c).trans (mem_tableAdds p c ops).symm)

theorem dedup_length_congr_of_mem_iff (l₁ l₂ : List String)
    (h : ∀ c, c ∈ l₁ ↔ c ∈ l₂) : l₁.dedup.length = l₂.dedup.length :=
  List.Perm.length_eq
    ((List.perm_ext_iff_of_nodup (List.nodup_dedup l₁) (List.nodup_dedup l₂)).2
      (fun c => by rw [List.mem_dedup, List.mem_dedup]; exact h c))

/-- Witness for C8 at a concrete input: both branches of the specification
are exercised. -/
theorem azurePortalLink_spec_witness :
    azurePortalLink "" "rg" = "" ∧
    azurePortalLink "sub-id" "rg" =
      WithLinkFormat
        ("https://portal.azure.com/#@/resource/subscriptions/" ++ "sub-id" ++
          "/resourceGroups/" ++ "rg" ++ "/overview") := by
  refine ⟨(azurePortalLink_spec "" "rg").1 (Or.inl rfl), ?_⟩
  exact ((azurePortalLink_spec "sub-id" "rg").2 (by decide) (by decide)).1

/-- **C5.** `ensure(parent)` (implemented as `addStorageAccount`) is
idempotent: repeated calls leave the registry in the same state as a single
call; calling it on a parent that already has an entry is a no-op (the
registry is returned unchanged, so it never clears or duplicates that
parent's existing Blob/Queue/Table children, and every lookup — of this or
any other parent — is unaffected); calling it on an absent parent creates an
entry with three empty child sets. -/
theorem addStorageAccount_idempotent (r : StorageRegistry) (p : String) :
    addStorageAccount p (addStorageAccount p r) = addStorageAccount p r ∧
    (∀ q, lookupAccount (addStorageAccount p r) q =
      if q = p then some (accountFor r p) else lookupAccount r q) ∧
    (lookupAccount r p = none →
      lookupAccount (addStorageAccount p r) p = some emptyAccount) ∧
    (∀ a, lookupAccount r p = some a → addStorageAccount p r = r) := by
  have h := lookup_addStorageAccount r p p
  rw [if_pos rfl] at h
  refine ⟨?_, fun q => lookup_addStorageAccount r p q, ?_, ?_⟩
  · conv_lhs => rw [addStorageAccount]
    rw [h]
  · intro h0
    rw [lookup_addStorageAccount, if_pos rfl]
    unfold accountFor
    rw [h0]
    rfl
  · intro a ha
    unfold addStorageAccount
    rw [ha]

/-- Witness for C5: both implicational branches exercised on concrete
registries — an absent parent gets an empty entry; a present parent is a
no-op. -/
theorem addStorageAccount_idempotent_witness :
    lookupAccount (addStorageAccount "storage" []) "storage" = some emptyAccount ∧
    addStorageAccount "storage" [("storage", emptyAccount)] =
      [("storage", emptyAccount)] :=
  ⟨(addStorageAccount_idempotent [] "storage").2.2.1 rfl,
   (addStorageAccount_idempotent [("storage", emptyAccount)] "storage").2.2.2
     emptyAccount (by decide)⟩

/-- **C2.** For every sequence of `ensure`/`addBlob`/`addQueue`/`addTable`
calls, the final registry state depends only on the set of distinct
`(parent, child)` pairs passed per child kind, not on call count or order:
the registry has exactly one entry per distinct parent name (keys are
duplicate-free and a parent is present iff some call mentioned it); each
parent's Blob/Queue/Table set sizes equal the number of distinct child
names added to that kind for that parent; any call sequence with the same
set of distinct calls yields the same parent set and the same child-set
sizes; and the literal 10-call scenario of
`TestAddContainerAppService` ends with storage → 1 blob, 2 queues,
1 table; storage2 → 0/0/1; storage3 → 0/0/0; storage4 → 0/0/1. -/
theorem storage_registry_aggregation (ops : List StorageOp) (p : String) :
    (regKeys (runOps ops)).Nodup ∧
    (∀ q, q ∈ regKeys (runOps ops) ↔ q ∈ ops.map StorageOp.parent) ∧
    ((accountFor (runOps ops) p).Blobs.length = (blobAdds p ops).dedup.length ∧
     (accountFor (runOps ops) p).Queues.length = (queueAdds p ops).dedup.length ∧
     (accountFor (runOps ops) p).Tables.length = (tableAdds p ops).dedup.length) ∧
    (∀ ops₂, (∀ o, o ∈ ops ↔ o ∈ ops₂) →
      (∀ q, q ∈ regKeys (runOps ops₂) ↔ q ∈ regKeys (runOps ops)) ∧
      (accountFor (runOps ops₂) p).Blobs.length =
        (accountFor (runOps ops) p).Blobs.length ∧
      (accountFor (runOps ops₂) p).Queues.length =
        (accountFor (runOps ops) p).Queues.length ∧
      (accountFor (runOps ops₂) p).Tables.length =
        (accountFor (runOps ops) p).Tables.length) ∧
    ((accountFor (runOps testOps) "storage").Blobs.length = 1 ∧
     (accountFor (runOps testOps) "storage").Queues.length = 2 ∧
     (accountFor (runOps testOps) "storage").Tables.length = 1 ∧
     (accountFor (runOps testOps) "storage2").Blobs.length = 0 ∧
     (accountFor (runOps testOps) "storage2").Queues.length = 0 ∧
     (accountFor (runOps testOps) "storage2").Tables.length = 1 ∧
     (accountFor (runOps testOps) "storage3").Blobs.length = 0 ∧
     (accountFor (runOps testOps) "storage3").Queues.length = 0 ∧
     (accountFor (runOps testOps) "storage3").Tables.length = 0 ∧
     (accountFor (runOps testOps) "storage4").Blobs.length = 0 ∧
     (accountFor (runOps testOps) "storage4").Queues.length = 0 ∧
     (accountFor (runOps testOps) "storage4").Tables.length = 1) := by
  refine ⟨regKeys_runOps_nodup ops, mem_regKeys_runOps ops,
    ⟨Blobs_length_runOps ops p, Queues_length_runOps ops p,
      Tables_length_runOps ops p⟩, ?_, by decide⟩
  intro ops₂ hmem
  have hmap : ∀ q, q ∈ ops₂.map StorageOp.parent ↔ q ∈ ops.map StorageOp.parent := by
    intro q
    simp only [List.mem_map]
    constructor
    · rintro ⟨o, ho, rfl⟩
      exact ⟨o, (hmem o).2 ho, rfl⟩
    · rintro ⟨o, ho, rfl⟩
      exact ⟨o, (hmem o).1 ho, rfl⟩
  refine ⟨fun q => (mem_regKeys_runOps ops₂ q).trans
      ((hmap q).trans (mem_regKeys_runOps ops q).symm), ?_, ?_, ?_⟩
  · rw [Blobs_length_runOps, Blobs_length_runOps]
    exact dedup_length_congr_of_mem_iff _ _ (fun c => by
      rw [mem_blobAdds, mem_blobAdds]; exact (hmem _).symm)
  · rw [Queues_length_runOps, Queues_length_runOps]
    exact dedup_length_congr_of_mem_iff _ _ (fun c => by
      rw [mem_queueAdds, mem_queueAdds]; exact (hmem _).symm)
  · rw [Tables_length_runOps, Tables_length_runOps]
    exact dedup_length_congr_of_mem_iff _ _ (fun c => by
      rw [mem_tableAdds, mem_tableAdds]; exact (hmem _).symm)

/-! ### Resolver helper lemmas -/

theorem scanValue_no_brace (cat : TypeCatalog) (l : List Char)
    (h : ∀ c ∈ l, c ≠ obrace) : scanValue cat none l = .ok l := by
  induction l with
  | nil => rfl
  | cons c rest ih =>
    have hc : c ≠ obrace := h c (List.mem_cons_self c rest)
    have ih' := ih (fun x hx => h x (List.mem_cons_of_mem c hx))
    rw [scanValue, if_neg hc, ih']
    rfl

theorem scanValue_append_no_brace (cat : TypeCatalog) (l t : List Char)
    (h : ∀ c ∈ l, c ≠ obrace) :
    scanValue cat none (l ++ t) = (scanValue cat none t).map (l ++ ·) := by
  induction l with
  | nil =>
    cases h' : scanValue cat none t <;> simp [h', Except.map]
  | cons c rest ih =>
    have hc : c ≠ obrace := h c (List.mem_cons_self c rest)
    have ih' := ih (fun x hx => h x (List.mem_cons_of_mem c hx))
    rw [List.cons_append, scanValue, if_neg hc, ih']
    cases h' : scanValue cat none t <;> simp [h', Except.map]

theorem scanValue_some_accum (cat : TypeCatalog) (acc span t : List Char)
    (h : ∀ c ∈ span, c ≠ obrace ∧ c ≠ cbrace) :
    scanValue cat (some acc) (span ++ t) = scanValue cat (some (acc ++ span)) t := by
  induction span generalizing acc with
  | nil => simp
  | cons c rest ih =>
    obtain ⟨hob, hcb⟩ := h c (List.mem_cons_self c rest)
    rw [List.cons_append, scanValue, if_neg hcb, if_neg hob,
      ih (acc ++ [c]) (fun x hx => h x (List.mem_cons_of_mem c hx)),
      List.append_assoc, List.singleton_append]

theorem scanValue_open (cat : TypeCatalog) (rest : List Char) :
    scanValue cat none (obrace :: rest) = scanValue cat (some []) rest := by
  rw [scanValue, if_pos rfl]

theorem scanValue_close (cat : TypeCatalog) (acc rest : List Char) :
    scanValue cat (some acc) (cbrace :: rest) =
      match resolveRef cat acc with
      | none => (scanValue cat none rest).map
          (fun t => obrace :: (acc ++ cbrace :: t))
      | some (.error e) => .error e
      | some (.ok rep) => (scanValue cat none rest).map (fun t => rep ++ t) := by
  rw [scanValue, if_pos rfl]

theorem resolveRef_missing (cat : TypeCatalog)
    (hmiss : lookupType cat "missing" = none) :
    resolveRef cat ("missing.connectionString").data =
      some (.error (.UnresolvedReference "\x7bmissing.connectionString\x7d")) := by
  have hsplit : splitDot ("missing.connectionString").data =
      some (("missing").data, ("connectionString").data) := by decide
  have hm : lookupType cat (String.mk ("missing").data) = none := hmiss
  simp only [resolveRef, hsplit, hm]
  decide

theorem scanValue_unresolved (cat : TypeCatalog) (pre post : List Char)
    (hpre : ∀ c ∈ pre, c ≠ obrace)
    (hmiss : lookupType cat "missing" = none) :
    scanValue cat none
        (pre ++ ("\x7bmissing.connectionString\x7d").data ++ post) =
      .error (.UnresolvedReference "\x7bmissing.connectionString\x7d") := by
  rw [List.append_assoc, scanValue_append_no_brace cat pre _ hpre]
  have hbad0 : ("\x7bmissing.connectionString\x7d").data =
      obrace :: (("missing.connectionString").data ++ [cbrace]) := by decide
  rw [hbad0, List.cons_append, List.append_assoc, List.singleton_append,
    scanValue_open,
    scanValue_some_accum cat [] _ (cbrace :: post) (by decide),
    List.nil_append, scanValue_close, resolveRef_missing cat hmiss]
  rfl

theorem buildEnvBlock_cons_ok (cat : TypeCatalog) (k v : String)
    (rest : List (String × String)) (out : List (String × String)) :
    buildEnvBlock cat ((k, v) :: rest) = .ok out ↔
      ∃ rv tl, resolveValue cat v = .ok rv ∧ buildEnvBlock cat rest = .ok tl ∧
        out = (k, rv) :: tl := by
  rw [buildEnvBlock]
  cases hrv : resolveValue cat v <;> cases htl : buildEnvBlock cat rest <;>
    simp [hrv, htl, eq_comm]

theorem buildEnvBlock_ok_values (cat : TypeCatalog) :
    ∀ (env out : List (String × String)), buildEnvBlock cat env = .ok out →
      ∀ kv ∈ env, ∃ rv, resolveValue cat kv.2 = .ok rv := by
  intro env
  induction env with
  | nil => intro out _ kv hkv; exact absurd hkv (List.not_mem_nil kv)
  | cons e rest ih =>
    intro out h kv hkv
    obtain ⟨k, v⟩ := e
    rw [buildEnvBlock_cons_ok] at h
    obtain ⟨rv, tl, hrv, htl, rfl⟩ := h
    rcases List.mem_cons.1 hkv with rfl | hmem
    · exact ⟨rv, hrv⟩
    · exact ih tl htl kv hmem

theorem scanValue_ext (cat cat₂ : TypeCatalog)
    (h : ∀ n, lookupType cat n = lookupType cat₂ n) :
    ∀ (st : Option (List Char)) (l : List Char),
      scanValue cat st l = scanValue cat₂ st l := by
  have hres : ∀ acc, resolveRef cat acc = resolveRef cat₂ acc := by
    intro acc
    cases hsp : splitDot acc with
    | none => simp only [resolveRef, hsp]
    | some nm =>
      obtain ⟨name, prop⟩ := nm
      simp only [resolveRef, hsp]
      rw [h (String.mk name)]
  intro st l
  induction l generalizing st with
  | nil => cases st <;> rfl
  | cons c rest ih =>
    cases st with
    | none =>
      rw [scanValue, scanValue]
      by_cases hc : c = obrace
      · rw [if_pos hc, if_pos hc, ih (some [])]
      · rw [if_neg hc, if_neg hc, ih none]
    | some acc =>
      rw [scanValue, scanValue]
      by_cases hcb : c = cbrace
      · rw [if_pos hcb, if_pos hcb, hres acc, ih none]
      · rw [if_neg hcb, if_neg hcb]
        by_cases hob : c = obrace
        · rw [if_pos hob, if_pos hob, ih (some [])]
        · rw [if_neg hob, if_neg hob, ih (some (acc ++ [c]))]

theorem lookupType_perm {cat cat₂ : TypeCatalog} (hp : cat.Perm cat₂) :
    (cat.map Prod.fst).Nodup → ∀ n, lookupType cat n = lookupType cat₂ n := by
  induction hp with
  | nil => intro _ _; rfl
  | cons x hrest ih =>
    intro hnd n
    rw [List.map_cons, List.nodup_cons] at hnd
    rw [lookupType, lookupType]
    by_cases hx : x.1 = n
    · rw [if_pos hx, if_pos hx]
    · rw [if_neg hx, if_neg hx, ih hnd.2 n]
  | swap x y l =>
    intro hnd n
    rw [List.map_cons, List.map_cons, List.nodup_cons, List.nodup_cons] at hnd
    have hyx : y.1 ≠ x.1 := fun hcontra =>
      hnd.1 (hcontra ▸ List.mem_cons_self _ _)
    simp only [lookupType]
    by_cases hxn : x.1 = n <;> by_cases hyn : y.1 = n
    · exact absurd (hyn.trans hxn.symm) hyx
    · simp [hxn, hyn]
    · simp [hxn, hyn]
    · simp [hxn, hyn]
  | trans h₁ h₂ ih₁ ih₂ =>
    intro hnd n
    have hnd₂ := ((h₁.map Prod.fst).nodup_iff).1 hnd
    rw [ih₁ hnd n, ih₂ hnd₂ n]

theorem buildEnvBlock_perm (cat : TypeCatalog)
    {env₁ env₂ : List (String × String)} (hp : env₁.Perm env₂) :
    ∀ out₁, buildEnvBlock cat env₁ = .ok out₁ →
      ∃ out₂, buildEnvBlock cat env₂ = .ok out₂ ∧ out₁.Perm out₂ := by
  induction hp with
  | nil =>
    intro out₁ h
    exact ⟨out₁, h, List.Perm.refl _⟩
  | cons x hrest ih =>
    intro out₁ h
    obtain ⟨k, v⟩ := x
    rw [buildEnvBlock_cons_ok] at h
    obtain ⟨rv, tl, hrv, htl, rfl⟩ := h
    obtain ⟨tl₂, htl₂, hperm⟩ := ih tl htl
    exact ⟨(k, rv) :: tl₂,
      (buildEnvBlock_cons_ok _ _ _ _ _).2 ⟨rv, tl₂, hrv, htl₂, rfl⟩,
      hperm.cons _⟩
  | swap x y l =>
    intro out₁ h
    obtain ⟨kx, vx⟩ := x
    obtain ⟨ky, vy⟩ := y
    rw [buildEnvBlock_cons_ok] at h
    obtain ⟨rvy, tl₁, hrvy, htl₁, rfl⟩ := h
    rw [buildEnvBlock_cons_ok] at htl₁
    obtain ⟨rvx, tl₂, hrvx, htl₂, rfl⟩ := htl₁
    refine ⟨(kx, rvx) :: (ky, rvy) :: tl₂,
      (buildEnvBlock_cons_ok _ _ _ _ _).2
        ⟨rvx, (ky, rvy) :: tl₂, hrvx,
          (buildEnvBlock_cons_ok _ _ _ _ _).2 ⟨rvy, tl₂, hrvy, htl₂, rfl⟩, rfl⟩,
      List.Perm.swap _ _ _⟩
  | trans h₁ h₂ ih₁ ih₂ =>
    intro out₁ h
    obtain ⟨o₂, ho₂, hp₂⟩ := ih₁ out₁ h
    obtain ⟨o₃, ho₃, hp₃⟩ := ih₂ o₂ ho₂
    exact ⟨o₃, ho₃, hp₂.trans hp₃⟩

/-- **C1.** Resolving an environment mapping rewrites each embedded reference
expression in place while leaving all surrounding literal text and all
values without references byte-identical: on the literal input of
`TestBuildEnvResolveServiceToConnectionString` (with `service` of
relational-database platform type `postgres.database.v0`), `buildEnvBlock`
produces exactly the expected mapping — `VAR1`/`VAR2` unchanged under the
same keys, `VAR3` rewritten in place — and, in general, any value
containing no opening brace passes through byte-identical. -/
theorem buildEnvBlock_rewrite_preserves_text :
    buildEnvBlock [("service", "postgres.database.v0")]
        [("VAR1", "value1"), ("VAR2", "value2"),
         ("VAR3", "complex \x7bservice.connectionString\x7d expression")] =
      .ok [("VAR1", "value1"), ("VAR2", "value2"),
         ("VAR3", "complex \x7b\x7b connectionString \"service\" \x7d\x7d expression")] ∧
    (∀ (cat : TypeCatalog) (s : String), (∀ c ∈ s.data, c ≠ obrace) →
      resolveValue cat s = .ok s) := by
  refine ⟨by decide, ?_⟩
  intro cat s h
  unfold resolveValue
  rw [scanValue_no_brace cat s.data h]
  rfl

/-- Witness for C1: the no-reference passthrough branch at a concrete
value. -/
theorem buildEnvBlock_rewrite_preserves_text_witness :
    resolveValue [("service", "postgres.database.v0")] "value1" = .ok "value1" :=
  buildEnvBlock_rewrite_preserves_text.2
    [("service", "postgres.database.v0")] "value1" (by decide)

/-- **C3.** Resolving an environment value that contains a reference
expression whose resource name is absent from the Type Catalog fails with
`UnresolvedReference`: for every value whose first bracketed span is the
reference to `missing` (arbitrary brace-free text before and arbitrary text
after), the resolver returns that error and never an output value, and an
environment block containing such a value can never produce an output
mapping — so neither the literal placeholder text nor an empty string is
ever written. -/
theorem unresolved_reference_fails (cat : TypeCatalog) (pre post : String)
    (hpre : ∀ c ∈ pre.data, c ≠ obrace)
    (hmiss : lookupType cat "missing" = none) :
    resolveValue cat (pre ++ "\x7bmissing.connectionString\x7d" ++ post) =
      .error (.UnresolvedReference "\x7bmissing.connectionString\x7d") ∧
    (∀ out, resolveValue cat (pre ++ "\x7bmissing.connectionString\x7d" ++ post) ≠
      .ok out) ∧
    (∀ (env : List (String × String)) (k : String)
        (out : List (String × String)),
      (k, pre ++ "\x7bmissing.connectionString\x7d" ++ post) ∈ env →
      buildEnvBlock cat env ≠ .ok out) := by
  have hdata : (pre ++ "\x7bmissing.connectionString\x7d" ++ post).data =
      pre.data ++ ("\x7bmissing.connectionString\x7d").data ++ post.data := by
    rw [String.data_append, String.data_append]
  have h1 : resolveValue cat (pre ++ "\x7bmissing.connectionString\x7d" ++ post) =
      .error (.UnresolvedReference "\x7bmissing.connectionString\x7d") := by
    unfold resolveValue
    rw [hdata, scanValue_unresolved cat pre.data post.data hpre hmiss]
    rfl
  refine ⟨h1, fun out h => by rw [h1] at h; exact Except.noConfusion h, ?_⟩
  intro env k out hmem hok
  obtain ⟨rv, hrv⟩ := buildEnvBlock_ok_values cat env out hok _ hmem
  rw [h1] at hrv
  exact Except.noConfusion hrv

/-- Witness for C3: the concrete value
`complex (missing.connectionString reference) expression` against the
catalog of the rewrite test fails with `UnresolvedReference`, and an
environment block holding it under `VAR3` yields no output mapping. -/
theorem unresolved_reference_fails_witness :
    resolveValue [("service", "postgres.database.v0")]
        ("complex " ++ "\x7bmissing.connectionString\x7d" ++ " expression") =
      .error (.UnresolvedReference "\x7bmissing.connectionString\x7d") ∧
    buildEnvBlock [("service", "postgres.database.v0")]
        [("VAR3", "complex " ++ "\x7bmissing.connectionString\x7d" ++ " expression")] ≠
      .ok [] := by
  have h := unresolved_reference_fails [("service", "postgres.database.v0")]
    "complex " " expression" (by decide) (by decide)
  exact ⟨h.1, h.2.2 _ "VAR3" [] (List.mem_cons_self _ _)⟩

/-- **C4.** Compilation is deterministic: the embedded compile stages are
functions of their inputs (identical inputs give byte-identical outputs),
and the Expression Resolver's output does not depend on map or set
iteration order — it depends on the catalog only through key lookup (not
its entry order), resolving values identically under any permutation of a
duplicate-free catalog, and permuting the environment entries permutes the
successful output pairs without changing any resolved byte. -/
theorem resolver_deterministic (cat : TypeCatalog) :
    (∀ env₁ env₂ : List (String × String), env₁ = env₂ →
      buildEnvBlock cat env₁ = buildEnvBlock cat env₂) ∧
    (∀ cat₂, (∀ n, lookupType cat n = lookupType cat₂ n) →
      ∀ s, resolveValue cat s = resolveValue cat₂ s) ∧
    (∀ cat₂, cat.Perm cat₂ → (cat.map Prod.fst).Nodup →
      ∀ s, resolveValue cat s = resolveValue cat₂ s) ∧
    (∀ (env₁ env₂ out₁ : List (String × String)), env₁.Perm env₂ →
      buildEnvBlock cat env₁ = .ok out₁ →
      ∃ out₂, buildEnvBlock cat env₂ = .ok out₂ ∧ out₁.Perm out₂) := by
  refine ⟨fun env₁ env₂ h => by rw [h], ?_, ?_, ?_⟩
  · intro cat₂ h s
    unfold resolveValue
    rw [scanValue_ext cat cat₂ h none s.data]
  · intro cat₂ hp hnd s
    unfold resolveValue
    rw [scanValue_ext cat cat₂ (lookupType_perm hp hnd) none s.data]
  · intro env₁ env₂ out₁ hp h
    exact buildEnvBlock_perm cat hp out₁ h

/-- Witness for C4: a permuted catalog resolves the rewrite-test value to
the same bytes, and a permuted environment yields a permutation of the same
resolved pairs. -/
theorem resolver_deterministic_witness :
    resolveValue [("service", "postgres.database.v0"), ("api", "project.v0")]
        "complex \x7bservice.connectionString\x7d expression" =
      resolveValue [("api", "project.v0"), ("service", "postgres.database.v0")]
        "complex \x7bservice.connectionString\x7d expression" ∧
    (∃ out₂, buildEnvBlock [("service", "postgres.database.v0")]
        [("VAR2", "value2"), ("VAR1", "value1")] = .ok out₂ ∧
      ([("VAR1", "value1"), ("VAR2", "value2")] :
        List (String × String)).Perm out₂) := by
  constructor
  · exact (resolver_deterministic _).2.2.1
      [("api", "project.v0"), ("service", "postgres.database.v0")]
      (List.Perm.swap _ _ _) (by decide) _
  · exact (resolver_deterministic _).2.2.2
      [("VAR1", "value1"), ("VAR2", "value2")]
      [("VAR2", "value2"), ("VAR1", "value1")]
      [("VAR1", "value1"), ("VAR2", "value2")]
      (List.Perm.swap _ _ _) (by decide)

/-! ### Emitter helper lemmas -/

theorem foldl_render_length (r : StorageRegistry) (acc : String) :
    acc.length ≤ (r.foldl (fun a e => a ++ renderStorageAccount e) acc).length := by
  induction r generalizing acc with
  | nil => exact le_refl _
  | cons e rest ih =>
    refine le_trans ?_ (ih (acc ++ renderStorageAccount e))
    rw [String.length_append]
    exact Nat.le_add_right _ _

theorem renderStorageAccount_length_pos (e : String × genStorageAccount) :
    0 < (renderStorageAccount e).length := by
  unfold renderStorageAccount
  simp only [String.length_append]
  have h : 0 < ("storageAccount " : String).length := by decide
  omega

theorem storageModule_length_pos (e : String × genStorageAccount)
    (rest : StorageRegistry) : 0 < (storageModule (e :: rest)).length := by
  have h0 : ("" : String).length = 0 := rfl
  have h1 := foldl_render_length rest ("" ++ renderStorageAccount e)
  rw [String.length_append, h0] at h1
  have h2 := renderStorageAccount_length_pos e
  unfold storageModule
  rw [List.foldl_cons]
  omega

theorem storageModule_ne_empty (e : String × genStorageAccount)
    (rest : StorageRegistry) : storageModule (e :: rest) ≠ "" := by
  intro h
  have hp := storageModule_length_pos e rest
  rw [h] at hp
  exact Nat.lt_irrefl 0 hp

/-- Witness for C2: the call-order-independence branch applied to the
concrete 10-call scenario and its reversal — the reversed sequence yields
the same queue count for `storage`. -/
theorem storage_registry_aggregation_witness :
    (accountFor (runOps testOps.reverse) "storage").Queues.length = 2 := by
  have h := ((storage_registry_aggregation testOps "storage").2.2.2.1
    testOps.reverse (fun o => (List.mem_reverse).symm)).2.2.1
  rw [h]
  decide

/-- **C6.** The Infrastructure Emitter emits exactly one module grouping per
platform-resource kind that has at least one registered parent in the
registry (here: the storage kind), and emits zero modules — no files at
all — for a kind with no registered parents; every emitted module has
non-empty content, so it never emits an empty or no-op module. -/
theorem bicep_emitter_completeness (ctx : genBicepTemplateContext) :
    ((BicepTemplate ctx).length = if ctx.StorageAccounts = [] then 0 else 1) ∧
    ((∃ f, f ∈ BicepTemplate ctx) ↔ ctx.StorageAccounts ≠ []) ∧
    (∀ f, f ∈ BicepTemplate ctx → f.2 ≠ "") := by
  obtain ⟨r⟩ := ctx
  cases r with
  | nil => simp [BicepTemplate]
  | cons e rest =>
    refine ⟨by simp [BicepTemplate], ?_, ?_⟩
    · constructor
      · intro _
        simp
      · intro _
        exact ⟨("storage.module.bicep", storageModule (e :: rest)),
          by simp [BicepTemplate]⟩
    · intro f hf
      simp only [BicepTemplate, List.isEmpty_cons, Bool.false_eq_true,
        if_false, List.mem_singleton] at hf
      rw [hf]
      exact storageModule_ne_empty e rest

/-- Witness for C6: a registry with one storage parent yields exactly one
non-empty module; the empty registry yields no files. -/
theorem bicep_emitter_completeness_witness :
    (BicepTemplate ⟨[("storage", emptyAccount)]⟩).length = 1 ∧
    (BicepTemplate ⟨[]⟩).length = 0 ∧
    ("storage.module.bicep", storageModule [("storage", emptyAccount)]).2 ≠ "" := by
  refine ⟨?_, ?_, ?_⟩
  · rw [(bicep_emitter_completeness ⟨[("storage", emptyAccount)]⟩).1]
    decide
  · rw [(bicep_emitter_completeness ⟨[]⟩).1]
    decide
  · exact (bicep_emitter_completeness ⟨[("storage", emptyAccount)]⟩).2.2 _
      (by decide)

/-- **C7.** The Service Manifest Emitter passes the externally-exposed flag
of each binding through unchanged: the template context always carries the
resource's bindings verbatim (the emitter never decides or alters exposure
itself), and for any resource whose single binding differs only in the
external flag, the manifest emitted with the flag set differs from the
manifest emitted with it unset — the output reflects the exposed state. -/
theorem manifest_exposure_passthrough (cat : TypeCatalog) (r : ManifestResource) :
    (∀ ctx, buildManifestContext cat r = .ok ctx → ctx.Bindings = r.bindings) ∧
    (∀ (b : Binding) (env : List (String × String)) (tT tF : String),
      ContainerAppManifestTemplateForProject cat
        ⟨[⟨b.scheme, b.protocol, b.transport, true⟩], env⟩ = .ok tT →
      ContainerAppManifestTemplateForProject cat
        ⟨[⟨b.scheme, b.protocol, b.transport, false⟩], env⟩ = .ok tF →
      tT ≠ tF) := by
  constructor
  · intro ctx h
    unfold buildManifestContext at h
    cases hb : buildEnvBlock cat r.env with
    | error e =>
      rw [hb] at h
      exact Except.noConfusion h
    | ok env' =>
      rw [hb] at h
      have h2 : (⟨env', r.bindings⟩ : genContainerAppManifestTemplateContext) =
          ctx := Except.ok.inj h
      rw [← h2]
  · intro b env tT tF hT hF hcontra
    unfold ContainerAppManifestTemplateForProject buildManifestContext at hT hF
    cases hb : buildEnvBlock cat env with
    | error e =>
      rw [hb] at hT
      exact Except.noConfusion hT
    | ok env' =>
      rw [hb] at hT hF
      have hT2 : renderManifest ⟨env', [⟨b.scheme, b.protocol, b.transport, true⟩]⟩ =
          tT := Except.ok.inj hT
      have hF2 : renderManifest ⟨env', [⟨b.scheme, b.protocol, b.transport, false⟩]⟩ =
          tF := Except.ok.inj hF
      rw [← hT2, ← hF2] at hcontra
      have hlen := congrArg String.length hcontra
      simp only [renderManifest, renderBindings, renderBinding, if_true,
        Bool.false_eq_true, if_false, String.length_append] at hlen
      have ht : ("true" : String).length = 4 := rfl
      have hf : ("false" : String).length = 5 := rfl
      rw [ht, hf] at hlen
      omega

/-- Witness for C7: a concrete one-binding resource emits different
manifests for external set vs unset. -/
theorem manifest_exposure_passthrough_witness :
    renderManifest ⟨[], [⟨"http", "tcp", "http2", true⟩]⟩ ≠
      renderManifest ⟨[], [⟨"http", "tcp", "http2", false⟩]⟩ :=
  (manifest_exposure_passthrough [] ⟨[⟨"http", "tcp", "http2", true⟩], []⟩).2
    ⟨"http", "tcp", "http2", true⟩ [] _ _ rfl rfl

/-! ### `SecretsAndVars` helper lemmas -/

theorem svStep_at_other (c : ConfigOptions) (a : EnvMap × EnvMap)
    (kv : String × String) (k : String) (hk : k ≠ kv.1) :
    (svStep c a kv).1 k = a.1 k ∧ (svStep c a kv).2 k = a.2 k := by
  refine ⟨?_, ?_⟩ <;>
  · simp only [svStep, updateVar]
    split_ifs <;> simp [updateVar, hk]

theorem sv_foldl_untouched (c : ConfigOptions) (env : List (String × String)) :
    ∀ (a : EnvMap × EnvMap) (k : String), k ∉ env.map Prod.fst →
      (env.foldl (svStep c) a).1 k = a.1 k ∧
      (env.foldl (svStep c) a).2 k = a.2 k := by
  induction env with
  | nil => intro a _ _; exact ⟨rfl, rfl⟩
  | cons kv rest ih =>
    intro a k hk
    rw [List.map_cons, List.mem_cons] at hk
    push_neg at hk
    rw [List.foldl_cons]
    obtain ⟨h1, h2⟩ := ih (svStep c a kv) k hk.2
    obtain ⟨h3, h4⟩ := svStep_at_other c a kv k hk.1
    exact ⟨h1.trans h3, h2.trans h4⟩

theorem sv_foldl_at (c : ConfigOptions) (env : List (String × String)) :
    ∀ (a : EnvMap × EnvMap) (k : String), (env.map Prod.fst).Nodup →
      ((env.foldl (svStep c) a).1 k =
        match lookupVal env k with
        | some v => if k ∈ c.Variables then some v else a.1 k
        | none => a.1 k) ∧
      ((env.foldl (svStep c) a).2 k =
        match lookupVal env k with
        | some v =>
            if k ∈ c.Secrets ∨ (c.AdditionalVariablesAsSecrets ∧
              k ∉ c.Variables ∧ k ∉ knownVars) then some v else a.2 k
        | none => a.2 k) := by
  induction env with
  | nil => intro a _ _; exact ⟨rfl, rfl⟩
  | cons kv rest ih =>
    intro a k hnd
    rw [List.map_cons, List.nodup_cons] at hnd
    rw [List.foldl_cons]
    by_cases hk : k = kv.1
    · have hrest : k ∉ rest.map Prod.fst := by rw [hk]; exact hnd.1
      obtain ⟨h1, h2⟩ := sv_foldl_untouched c rest (svStep c a kv) k hrest
      rw [h1, h2]
      have hl : lookupVal (kv :: rest) k = some kv.2 := by
        rw [lookupVal, if_pos hk.symm]
      rw [hl]
      subst hk
      constructor
      · simp only [svStep, updateVar]
        split_ifs <;> simp [updateVar]
      · simp only [svStep, updateVar]
        split_ifs <;> simp_all [updateVar]
    · obtain ⟨h3, h4⟩ := svStep_at_other c a kv k hk
      have hl : lookupVal (kv :: rest) k = lookupVal rest k := by
        rw [lookupVal, if_neg (fun h => hk h.symm)]
      rw [hl]
      obtain ⟨h1, h2⟩ := ih (svStep c a kv) k hnd.2
      rw [h1, h2]
      constructor
      · cases hv : lookupVal rest k <;> simp [hv, h3]
      · cases hv : lookupVal rest k <;> simp [hv, h4]

/-- **C9.** `ConfigOptions.SecretsAndVars` never mutates its three input
maps (the embedding treats Go maps as values; `maps.Clone` is rendered by
starting the fold from the immutable initial maps): the returned variables
and secrets maps agree with the initial maps everywhere outside the env
keys, and at an env key `k` with value `v` the variables map holds `v` iff
`k` is listed in `c.Variables` (the initial entry otherwise), while the
secrets map holds `v` iff `k` is listed in `c.Secrets` or
`c.AdditionalVariablesAsSecrets` is set and `k` is neither in
`c.Variables` nor in the fixed known-variables list. -/
theorem SecretsAndVars_spec (c : ConfigOptions) (iv is : EnvMap)
    (env : List (String × String)) (hnd : (env.map Prod.fst).Nodup) (k : String) :
    ((SecretsAndVars c iv is env).1 k =
      match lookupVal env k with
      | some v => if k ∈ c.Variables then some v else iv k
      | none => iv k) ∧
    ((SecretsAndVars c iv is env).2 k =
      match lookupVal env k with
      | some v =>
          if k ∈ c.Secrets ∨ (c.AdditionalVariablesAsSecrets ∧
            k ∉ c.Variables ∧ k ∉ knownVars) then some v else is k
      | none => is k) ∧
    (k ∉ env.map Prod.fst →
      (SecretsAndVars c iv is env).1 k = iv k ∧
        (SecretsAndVars c iv is env).2 k = is k) :=
  ⟨(sv_foldl_at c env (iv, is) k hnd).1,
   (sv_foldl_at c env (iv, is) k hnd).2,
   fun hk => sv_foldl_untouched c env (iv, is) k hk⟩

/-- Witness for C9 at concrete inputs: an env key listed in `Variables`
lands in variables; an unlisted key lands in secrets via
`AdditionalVariablesAsSecrets`; a key outside env is untouched. -/
theorem SecretsAndVars_spec_witness :
    (SecretsAndVars ⟨["FOO"], [], true⟩ (fun _ => none) (fun _ => none)
        [("FOO", "1"), ("BAR", "2")]).1 "FOO" = some "1" ∧
    (SecretsAndVars ⟨["FOO"], [], true⟩ (fun _ => none) (fun _ => none)
        [("FOO", "1"), ("BAR", "2")]).2 "BAR" = some "2" ∧
    (SecretsAndVars ⟨["FOO"], [], true⟩ (fun _ => none) (fun _ => none)
        [("FOO", "1"), ("BAR", "2")]).1 "OTHER" = none := by
  have h1 := SecretsAndVars_spec ⟨["FOO"], [], true⟩ (fun _ => none)
    (fun _ => none) [("FOO", "1"), ("BAR", "2")] (by decide) "FOO"
  have h2 := SecretsAndVars_spec ⟨["FOO"], [], true⟩ (fun _ => none)
    (fun _ => none) [("FOO", "1"), ("BAR", "2")] (by decide) "BAR"
  have h3 := SecretsAndVars_spec ⟨["FOO"], [], true⟩ (fun _ => none)
    (fun _ => none) [("FOO", "1"), ("BAR", "2")] (by decide) "OTHER"
  refine ⟨?_, ?_, ?_⟩
  · rw [h1.1]
    decide
  · rw [h2.2.1]
    decide
  · exact (h3.2.2 (by decide)).1

end AzureDev
